import Mathlib

/-!
Shallow embedding of the `ecc` compiler core: the lexer (`src/lexer.cpp`),
the recursive-descent parser (`src/parser.cpp`) and the code generator
(`src/compiler.cpp`), together with theorems checking the natural-language
specification against this code.

Conventions of the embedding:
* C++ `std::string_view` source text is a `List Char` plus an index
  (`m_current`), exactly as the `Lexer` class stores a view and an offset.
* Machine integers (`std::size_t`, `int`) are `Nat` / `Int`; `std::stoi`'s
  range check against `int` is modelled explicitly against `2 ^ 31 - 1`.
* Thrown exceptions become `Except` errors carrying the same message
  strings the C++ code constructs.
-/

namespace Ecc

/-- The token-type enumeration from `include/ecc/lexer.hpp`. -/
inductive TokenType where
  | KeywordInt
  | KeywordReturn
  | KeywordVoid
  | LiteralIdentifier
  | LiteralInteger
  | SpecialError
  | SymbolBraceLeft
  | SymbolBraceRight
  | SymbolParenLeft
  | SymbolParenRight
  | SymbolSemicolon
  deriving DecidableEq, Repr

/-- `operator<<(std::ostream &, TokenType)`: the printed name of a token
type, used inside parser error messages. -/
def showTokenType : TokenType → String
  | .KeywordInt => "TokenType::KeywordInt"
  | .KeywordReturn => "TokenType::KeywordReturn"
  | .KeywordVoid => "TokenType::KeywordVoid"
  | .LiteralIdentifier => "TokenType::LiteralIdentifier"
  | .LiteralInteger => "TokenType::LiteralInteger"
  | .SpecialError => "TokenType::SpecialError"
  | .SymbolBraceLeft => "TokenType::SymbolBraceLeft"
  | .SymbolBraceRight => "TokenType::SymbolBraceRight"
  | .SymbolParenLeft => "TokenType::SymbolParenLeft"
  | .SymbolParenRight => "TokenType::SymbolParenRight"
  | .SymbolSemicolon => "TokenType::SymbolSemicolon"

/-- `check_keyword` from `src/lexer.cpp`. -/
def check_keyword (lexeme : String) : TokenType :=
  if lexeme = "int" then TokenType.KeywordInt
  else if lexeme = "return" then TokenType.KeywordReturn
  else if lexeme = "void" then TokenType.KeywordVoid
  else TokenType.LiteralIdentifier

/-- The `Token` struct: type, lexeme, line and column. -/
structure Token where
  type : TokenType
  lexeme : String
  line : Nat
  column : Nat
  deriving DecidableEq, Repr

/-- `std::string_view::substr(pos, count)`: the characters of `s` from
index `pos`, at most `count` of them. -/
def substr (s : List Char) (pos count : Nat) : String :=
  String.mk ((s.drop pos).take count)

/-- The `Lexer` class state: borrowed source, cursor offset, line, column. -/
structure Lexer where
  m_source : List Char
  m_current : Nat
  m_line : Nat
  m_column : Nat
  deriving DecidableEq, Repr

/-- The `Lexer(std::string_view source)` constructor. -/
def Lexer.init (source : List Char) : Lexer :=
  { m_source := source, m_current := 0, m_line := 1, m_column := 1 }

/-- `Lexer::is_ident_start`. -/
def is_ident_start (c : Char) : Bool :=
  ('A' ≤ c && c ≤ 'Z') || ('a' ≤ c && c ≤ 'z') || c = '_'

/-- `Lexer::is_digit`. -/
def is_digit (c : Char) : Bool :=
  '0' ≤ c && c ≤ '9'

/-- `Lexer::is_ident`. -/
def is_ident (c : Char) : Bool :=
  is_ident_start c || is_digit c

/-- `std::isspace` in the default locale: space, tab, newline, vertical
tab, form feed, carriage return. -/
def isspace (c : Char) : Bool :=
  c = ' ' || c = '\t' || c = '\n' || c = '\x0b' || c = '\x0c' || c = '\r'

/-- `Lexer::get_current`. -/
def Lexer.get_current (l : Lexer) : Option Char :=
  l.m_source.get? l.m_current

/-- `Lexer::advance`: consume one character if any remain; a newline bumps
the line counter and resets the column to 1. -/
def Lexer.advance (l : Lexer) : Lexer :=
  match l.get_current with
  | none => l
  | some current =>
    let l' := { l with m_current := l.m_current + 1, m_column := l.m_column + 1 }
    if current = '\n' then { l' with m_line := l'.m_line + 1, m_column := 1 } else l'

theorem Lexer.advance_m_source (l : Lexer) : l.advance.m_source = l.m_source := by
  unfold Lexer.advance
  split
  · rfl
  · split <;> rfl

theorem Lexer.advance_m_current_of_some {l : Lexer} {c : Char}
    (h : l.get_current = some c) : l.advance.m_current = l.m_current + 1 := by
  simp only [Lexer.advance, h]
  split <;> rfl

theorem Lexer.get_current_lt {l : Lexer} {c : Char}
    (h : l.get_current = some c) : l.m_current < l.m_source.length := by
  unfold Lexer.get_current at h
  by_contra hlt
  rw [List.get?_eq_none.mpr (by omega)] at h
  exact Option.noConfusion h

/-- `Lexer::skip_whitespace`: advance while the current character is
whitespace. -/
def Lexer.skip_whitespace (l : Lexer) : Lexer :=
  match h : l.get_current with
  | none => l
  | some current =>
    if isspace current then Lexer.skip_whitespace l.advance else l
termination_by l.m_source.length - l.m_current
decreasing_by
  have h1 : l.advance.m_source.length = l.m_source.length := by
    rw [Lexer.advance_m_source]
  have h2 := Lexer.advance_m_current_of_some h
  have h3 := Lexer.get_current_lt h
  omega

/-- `Lexer::make_token_and_advance`.  Exactly as in the source, the token
is tagged `TokenType::SymbolBraceLeft` no matter which `type` was
requested (`src/lexer.cpp`, the `const Token token = {TokenType::SymbolBraceLeft, ...}`
initializer), and the lexeme is the one-character substring at the cursor. -/
def Lexer.make_token_and_advance (l : Lexer) (type : TokenType) : Token × Lexer :=
  let token : Token :=
    { type := TokenType.SymbolBraceLeft,
      lexeme := substr l.m_source l.m_current 1,
      line := l.m_line,
      column := l.m_column }
  (token, l.advance)

/-- The `while (true)` loop of `Lexer::make_identifier`: `start` is the
cursor offset where the identifier began, `length` the count accumulated
so far (note the source increments `length` only for characters seen
*after* the initial `advance()`). -/
def Lexer.ident_loop (l : Lexer) (start length : Nat) : Token × Lexer :=
  match h : l.get_current with
  | some current =>
    if is_ident current then
      Lexer.ident_loop l.advance start (length + 1)
    else
      let lexeme := substr l.m_source start length
      ({ type := check_keyword lexeme, lexeme := lexeme,
         line := l.m_line, column := l.m_column }, l)
  | none =>
    let lexeme := substr l.m_source start length
    ({ type := check_keyword lexeme, lexeme := lexeme,
       line := l.m_line, column := l.m_column }, l)
termination_by l.m_source.length - l.m_current
decreasing_by
  have h1 : l.advance.m_source.length = l.m_source.length := by
    rw [Lexer.advance_m_source]
  have h2 := Lexer.advance_m_current_of_some h
  have h3 := Lexer.get_current_lt h
  omega

/-- `Lexer::make_identifier`.  The source throws `LexError` when the
current character is not an identifier start; that exceptional exit is
modelled as `none` (it is unreachable from `next_token`, which checks
`is_ident_start` first). -/
def Lexer.make_identifier (l : Lexer) : Option (Token × Lexer) :=
  match l.get_current with
  | none => none
  | some current =>
    if is_ident_start current then
      some (Lexer.ident_loop l.advance l.m_current 0)
    else
      none

/-- The `while (true)` loop of `Lexer::make_number`, with the same
accumulator discipline as `ident_loop`. -/
def Lexer.number_loop (l : Lexer) (start length : Nat) : Token × Lexer :=
  match h : l.get_current with
  | some current =>
    if is_digit current then
      Lexer.number_loop l.advance start (length + 1)
    else
      ({ type := TokenType.LiteralInteger, lexeme := substr l.m_source start length,
         line := l.m_line, column := l.m_column }, l)
  | none =>
    ({ type := TokenType.LiteralInteger, lexeme := substr l.m_source start length,
       line := l.m_line, column := l.m_column }, l)
termination_by l.m_source.length - l.m_current
decreasing_by
  have h1 : l.advance.m_source.length = l.m_source.length := by
    rw [Lexer.advance_m_source]
  have h2 := Lexer.advance_m_current_of_some h
  have h3 := Lexer.get_current_lt h
  omega

/-- `Lexer::make_number`; the `LexError` throw is modelled as `none`,
as in `make_identifier`. -/
def Lexer.make_number (l : Lexer) : Option (Token × Lexer) :=
  match l.get_current with
  | none => none
  | some current =>
    if is_digit current then
      some (Lexer.number_loop l.advance l.m_current 0)
    else
      none

/-- `Lexer::make_error`: an error token whose lexeme is the fixed string
`"unrecognized character"`, positioned at the offending character, after
which the lexer advances one character. -/
def Lexer.make_error (l : Lexer) : Token × Lexer :=
  ({ type := TokenType.SpecialError, lexeme := "unrecognized character",
     line := l.m_line, column := l.m_column }, l.advance)

/-- The classification step of `Lexer::next_token`, applied once
whitespace has been skipped: the C++ `switch` over `{ } ( ) ;` followed by
the identifier / digit / error default branch. -/
def Lexer.classify (m : Lexer) : Option (Token × Lexer) :=
  match m.get_current with
  | none => none
  | some current =>
    if current = '{' then some (m.make_token_and_advance TokenType.SymbolBraceLeft)
    else if current = '}' then some (m.make_token_and_advance TokenType.SymbolBraceRight)
    else if current = '(' then some (m.make_token_and_advance TokenType.SymbolParenLeft)
    else if current = ')' then some (m.make_token_and_advance TokenType.SymbolParenRight)
    else if current = ';' then some (m.make_token_and_advance TokenType.SymbolSemicolon)
    else if is_ident_start current then m.make_identifier
    else if is_digit current then m.make_number
    else some m.make_error

/-- `Lexer::next_token`: skip whitespace, signal end-of-stream if no
characters remain, otherwise classify the current character. -/
def Lexer.next_token (l : Lexer) : Option (Token × Lexer) :=
  Lexer.classify l.skip_whitespace

theorem Lexer.skip_whitespace_m_source (l : Lexer) :
    l.skip_whitespace.m_source = l.m_source := by
  rw [Lexer.skip_whitespace]
  split
  · rfl
  · split
    · rw [Lexer.skip_whitespace_m_source, Lexer.advance_m_source]
    · rfl
termination_by l.m_source.length - l.m_current
decreasing_by
  rename_i h _
  have h1 : l.advance.m_source.length = l.m_source.length := by
    rw [Lexer.advance_m_source]
  have h2 := Lexer.advance_m_current_of_some h
  have h3 := Lexer.get_current_lt h
  omega

theorem Lexer.skip_whitespace_m_current_ge (l : Lexer) :
    l.m_current ≤ l.skip_whitespace.m_current := by
  rw [Lexer.skip_whitespace]
  split
  · exact Nat.le_refl _
  · split
    · rename_i h _
      have h2 := Lexer.advance_m_current_of_some h
      have := Lexer.skip_whitespace_m_current_ge l.advance
      omega
    · exact Nat.le_refl _
termination_by l.m_source.length - l.m_current
decreasing_by
  rename_i h _
  have h1 : l.advance.m_source.length = l.m_source.length := by
    rw [Lexer.advance_m_source]
  have h2 := Lexer.advance_m_current_of_some h
  have h3 := Lexer.get_current_lt h
  omega

theorem Lexer.ident_loop_m_source (l : Lexer) (start length : Nat) :
    (Lexer.ident_loop l start length).2.m_source = l.m_source := by
  rw [Lexer.ident_loop]
  split
  · split
    · rw [Lexer.ident_loop_m_source, Lexer.advance_m_source]
    · rfl
  · rfl
termination_by l.m_source.length - l.m_current
decreasing_by
  rename_i h _
  have h1 : l.advance.m_source.length = l.m_source.length := by
    rw [Lexer.advance_m_source]
  have h2 := Lexer.advance_m_current_of_some h
  have h3 := Lexer.get_current_lt h
  omega

theorem Lexer.ident_loop_m_current_ge (l : Lexer) (start length : Nat) :
    l.m_current ≤ (Lexer.ident_loop l start length).2.m_current := by
  rw [Lexer.ident_loop]
  split
  · split
    · rename_i h _
      have h2 := Lexer.advance_m_current_of_some h
      have := Lexer.ident_loop_m_current_ge l.advance start (length + 1)
      omega
    · exact Nat.le_refl _
  · exact Nat.le_refl _
termination_by l.m_source.length - l.m_current
decreasing_by
  rename_i h _
  have h1 : l.advance.m_source.length = l.m_source.length := by
    rw [Lexer.advance_m_source]
  have h2 := Lexer.advance_m_current_of_some h
  have h3 := Lexer.get_current_lt h
  omega

theorem Lexer.number_loop_m_source (l : Lexer) (start length : Nat) :
    (Lexer.number_loop l start length).2.m_source = l.m_source := by
  rw [Lexer.number_loop]
  split
  · split
    · rw [Lexer.number_loop_m_source, Lexer.advance_m_source]
    · rfl
  · rfl
termination_by l.m_source.length - l.m_current
decreasing_by
  rename_i h _
  have h1 : l.advance.m_source.length = l.m_source.length := by
    rw [Lexer.advance_m_source]
  have h2 := Lexer.advance_m_current_of_some h
  have h3 := Lexer.get_current_lt h
  omega

theorem Lexer.number_loop_m_current_ge (l : Lexer) (start length : Nat) :
    l.m_current ≤ (Lexer.number_loop l start length).2.m_current := by
  rw [Lexer.number_loop]
  split
  · split
    · rename_i h _
      have h2 := Lexer.advance_m_current_of_some h
      have := Lexer.number_loop_m_current_ge l.advance start (length + 1)
      omega
    · exact Nat.le_refl _
  · exact Nat.le_refl _
termination_by l.m_source.length - l.m_current
decreasing_by
  rename_i h _
  have h1 : l.advance.m_source.length = l.m_source.length := by
    rw [Lexer.advance_m_source]
  have h2 := Lexer.advance_m_current_of_some h
  have h3 := Lexer.get_current_lt h
  omega

/-! ### Step lemmas for the lexer loops -/

theorem Lexer.skip_whitespace_of_none {l : Lexer} (h : l.get_current = none) :
    l.skip_whitespace = l := by
  rw [Lexer.skip_whitespace]
  split
  · rfl
  · rename_i c hc
    rw [h] at hc
    exact Option.noConfusion hc

theorem Lexer.skip_whitespace_of_stop {l : Lexer} {c : Char}
    (h : l.get_current = some c) (hs : isspace c = false) :
    l.skip_whitespace = l := by
  rw [Lexer.skip_whitespace]
  split
  · rfl
  · rename_i c' hc
    rw [h] at hc
    obtain rfl : c = c' := Option.some.inj hc
    rw [hs]
    simp

theorem Lexer.skip_whitespace_of_space {l : Lexer} {c : Char}
    (h : l.get_current = some c) (hs : isspace c = true) :
    l.skip_whitespace = l.advance.skip_whitespace := by
  conv_lhs => rw [Lexer.skip_whitespace]
  split
  · rename_i hc
    rw [h] at hc
    exact Option.noConfusion hc
  · rename_i c' hc
    rw [h] at hc
    obtain rfl : c = c' := Option.some.inj hc
    rw [hs]
    simp

theorem Lexer.ident_loop_of_none {l : Lexer} {start length : Nat}
    (h : l.get_current = none) :
    Lexer.ident_loop l start length =
      ({ type := check_keyword (substr l.m_source start length),
         lexeme := substr l.m_source start length,
         line := l.m_line, column := l.m_column }, l) := by
  rw [Lexer.ident_loop]
  split
  · rename_i c hc
    rw [h] at hc
    exact Option.noConfusion hc
  · rfl

theorem Lexer.ident_loop_of_stop {l : Lexer} {c : Char} {start length : Nat}
    (h : l.get_current = some c) (hs : is_ident c = false) :
    Lexer.ident_loop l start length =
      ({ type := check_keyword (substr l.m_source start length),
         lexeme := substr l.m_source start length,
         line := l.m_line, column := l.m_column }, l) := by
  rw [Lexer.ident_loop]
  split
  · rename_i c' hc
    rw [h] at hc
    obtain rfl : c = c' := Option.some.inj hc
    rw [hs]
    simp
  · rename_i hc
    rw [h] at hc

theorem Lexer.ident_loop_of_cont {l : Lexer} {c : Char} {start length : Nat}
    (h : l.get_current = some c) (hs : is_ident c = true) :
    Lexer.ident_loop l start length = Lexer.ident_loop l.advance start (length + 1) := by
  conv_lhs => rw [Lexer.ident_loop]
  split
  · rename_i c' hc
    rw [h] at hc
    obtain rfl : c = c' := Option.some.inj hc
    rw [hs]
    simp
  · rename_i hc
    rw [h] at hc
    exact Option.noConfusion hc

theorem Lexer.number_loop_of_none {l : Lexer} {start length : Nat}
    (h : l.get_current = none) :
    Lexer.number_loop l start length =
      ({ type := TokenType.LiteralInteger,
         lexeme := substr l.m_source start length,
         line := l.m_line, column := l.m_column }, l) := by
  rw [Lexer.number_loop]
  split
  · rename_i c hc
    rw [h] at hc
    exact Option.noConfusion hc
  · rfl

theorem Lexer.number_loop_of_stop {l : Lexer} {c : Char} {start length : Nat}
    (h : l.get_current = some c) (hs : is_digit c = false) :
    Lexer.number_loop l start length =
      ({ type := TokenType.LiteralInteger,
         lexeme := substr l.m_source start length,
         line := l.m_line, column := l.m_column }, l) := by
  rw [Lexer.number_loop]
  split
  · rename_i c' hc
    rw [h] at hc
    obtain rfl : c = c' := Option.some.inj hc
    rw [hs]
    simp
  · rename_i hc
    rw [h] at hc

theorem Lexer.number_loop_of_cont {l : Lexer} {c : Char} {start length : Nat}
    (h : l.get_current = some c) (hs : is_digit c = true) :
    Lexer.number_loop l start length = Lexer.number_loop l.advance start (length + 1) := by
  conv_lhs => rw [Lexer.number_loop]
  split
  · rename_i c' hc
    rw [h] at hc
    obtain rfl : c = c' := Option.some.inj hc
    rw [hs]
    simp
  · rename_i hc
    rw [h] at hc
    exact Option.noConfusion hc

/-- Progress of the classification step: whenever it produces a token, the
source is unchanged and the cursor strictly advances from an in-bounds
position. -/
theorem Lexer.classify_progress {m : Lexer} {t : Token} {l' : Lexer}
    (h : m.classify = some (t, l')) :
    l'.m_source = m.m_source ∧ m.m_current < l'.m_current ∧
      m.m_current < m.m_source.length := by
  unfold Lexer.classify at h
  cases hc : m.get_current with
  | none => rw [hc] at h; exact Option.noConfusion h
  | some current =>
    rw [hc] at h
    have hin : m.m_current < m.m_source.length := Lexer.get_current_lt hc
    have hadv2 : m.advance.m_current = m.m_current + 1 :=
      Lexer.advance_m_current_of_some hc
    have hadvsrc : m.advance.m_source = m.m_source := Lexer.advance_m_source m
    simp only at h
    split_ifs at h with h1 h2 h3 h4 h5 h6 h7
    · obtain ⟨_, rfl⟩ := Prod.mk.injEq .. ▸ Option.some.inj h
      exact ⟨hadvsrc, by omega, hin⟩
    · obtain ⟨_, rfl⟩ := Prod.mk.injEq .. ▸ Option.some.inj h
      exact ⟨hadvsrc, by omega, hin⟩
    · obtain ⟨_, rfl⟩ := Prod.mk.injEq .. ▸ Option.some.inj h
      exact ⟨hadvsrc, by omega, hin⟩
    · obtain ⟨_, rfl⟩ := Prod.mk.injEq .. ▸ Option.some.inj h
      exact ⟨hadvsrc, by omega, hin⟩
    · obtain ⟨_, rfl⟩ := Prod.mk.injEq .. ▸ Option.some.inj h
      exact ⟨hadvsrc, by omega, hin⟩
    · unfold Lexer.make_identifier at h
      rw [hc] at h
      simp only [h6, if_true] at h
      obtain ⟨_, rfl⟩ := Prod.mk.injEq .. ▸ Option.some.inj h
      refine ⟨?_, ?_, hin⟩
      · rw [Lexer.ident_loop_m_source, hadvsrc]
      · have := Lexer.ident_loop_m_current_ge m.advance m.m_current 0
        omega
    · unfold Lexer.make_number at h
      rw [hc] at h
      simp only [h7, if_true] at h
      obtain ⟨_, rfl⟩ := Prod.mk.injEq .. ▸ Option.some.inj h
      refine ⟨?_, ?_, hin⟩
      · rw [Lexer.number_loop_m_source, hadvsrc]
      · have := Lexer.number_loop_m_current_ge m.advance m.m_current 0
        omega
    · obtain ⟨_, rfl⟩ := Prod.mk.injEq .. ▸ Option.some.inj h
      exact ⟨hadvsrc, by omega, hin⟩

/-- Progress of `next_token`: whenever a token is produced, the source is
unchanged, the cursor has strictly advanced, and the call started strictly
inside the source. -/
theorem Lexer.next_token_progress {l : Lexer} {t : Token} {l' : Lexer}
    (h : l.next_token = some (t, l')) :
    l'.m_source = l.m_source ∧ l.m_current < l'.m_current ∧
      l.m_current < l.m_source.length := by
  unfold Lexer.next_token at h
  have hsrc : l.skip_whitespace.m_source = l.m_source :=
    Lexer.skip_whitespace_m_source l
  have hge : l.m_current ≤ l.skip_whitespace.m_current :=
    Lexer.skip_whitespace_m_current_ge l
  obtain ⟨h1, h2, h3⟩ := Lexer.classify_progress h
  rw [hsrc] at h1 h3
  exact ⟨h1, by omega, by omega⟩

/-- The token-collection loop of `main` (`src/main.cpp`): call
`next_token` until it returns `nullopt`, pushing each token. -/
def Lexer.tokenize_loop (l : Lexer) (tokens : List Token) : List Token :=
  match h : l.next_token with
  | none => tokens
  | some (t, l') => Lexer.tokenize_loop l' (tokens ++ [t])
termination_by l.m_source.length - l.m_current
decreasing_by
  obtain ⟨h1, h2, h3⟩ := Lexer.next_token_progress h
  have : l'.m_source.length = l.m_source.length := by rw [h1]
  omega

theorem Lexer.tokenize_loop_of_none {l : Lexer} {tokens : List Token}
    (h : l.next_token = none) : Lexer.tokenize_loop l tokens = tokens := by
  rw [Lexer.tokenize_loop]
  split
  · rfl
  · rename_i t l' hc
    rw [h] at hc
    exact Option.noConfusion hc

theorem Lexer.tokenize_loop_of_some {l : Lexer} {t : Token} {l' : Lexer} {tokens : List Token}
    (h : l.next_token = some (t, l')) :
    Lexer.tokenize_loop l tokens = Lexer.tokenize_loop l' (tokens ++ [t]) := by
  conv_lhs => rw [Lexer.tokenize_loop]
  split
  · rename_i hc
    rw [h] at hc
    exact Option.noConfusion hc
  · rename_i t' l'' hc
    rw [h] at hc
    obtain ⟨rfl, rfl⟩ := Prod.mk.injEq .. ▸ Option.some.inj hc
    rfl

/-- Lex a whole source text into the eager token sequence the parser is
constructed from. -/
def tokenize (source : List Char) : List Token :=
  Lexer.tokenize_loop (Lexer.init source) []

/-! ### Fuel-indexed executable mirrors

Each well-founded loop above is the direct translation of a C++
`while (true)` loop; to evaluate them on concrete inputs inside proofs,
each gets a structurally recursive mirror with an explicit fuel bound,
proven equal whenever the fuel covers the remaining input. -/

def Lexer.skip_whitespace_fuel : Nat → Lexer → Lexer
  | 0, l => l
  | fuel + 1, l =>
    match l.get_current with
    | none => l
    | some current =>
      if isspace current then Lexer.skip_whitespace_fuel fuel l.advance else l

theorem Lexer.get_current_none_of_le {l : Lexer}
    (h : l.m_source.length ≤ l.m_current) : l.get_current = none := by
  unfold Lexer.get_current
  exact List.get?_eq_none.mpr h

theorem Lexer.skip_whitespace_fuel_eq (fuel : Nat) :
    ∀ l : Lexer, l.m_source.length - l.m_current ≤ fuel →
      Lexer.skip_whitespace_fuel fuel l = l.skip_whitespace := by
  induction fuel with
  | zero =>
    intro l h
    rw [Lexer.skip_whitespace_of_none (Lexer.get_current_none_of_le (by omega))]
    rfl
  | succ fuel ih =>
    intro l h
    cases hc : l.get_current with
    | none =>
      rw [Lexer.skip_whitespace_of_none hc]
      simp [Lexer.skip_whitespace_fuel, hc]
    | some c =>
      have h1 := Lexer.advance_m_current_of_some hc
      have h2 : l.advance.m_source.length = l.m_source.length := by
        rw [Lexer.advance_m_source]
      have h3 := Lexer.get_current_lt hc
      by_cases hs : isspace c = true
      · rw [Lexer.skip_whitespace_of_space hc hs, ← ih l.advance (by omega)]
        simp [Lexer.skip_whitespace_fuel, hc, hs]
      · have hs' : isspace c = false := by simpa using hs
        rw [Lexer.skip_whitespace_of_stop hc hs']
        simp [Lexer.skip_whitespace_fuel, hc, hs']

/-- `skip_whitespace` with just enough fuel. -/
def Lexer.skip_whitespace_exec (l : Lexer) : Lexer :=
  Lexer.skip_whitespace_fuel (l.m_source.length - l.m_current) l

theorem Lexer.skip_whitespace_exec_eq (l : Lexer) :
    l.skip_whitespace_exec = l.skip_whitespace :=
  Lexer.skip_whitespace_fuel_eq _ l (Nat.le_refl _)

def Lexer.ident_loop_fuel : Nat → Lexer → Nat → Nat → Token × Lexer
  | 0, l, start, length =>
    ({ type := check_keyword (substr l.m_source start length),
       lexeme := substr l.m_source start length,
       line := l.m_line, column := l.m_column }, l)
  | fuel + 1, l, start, length =>
    match l.get_current with
    | some current =>
      if is_ident current then
        Lexer.ident_loop_fuel fuel l.advance start (length + 1)
      else
        ({ type := check_keyword (substr l.m_source start length),
           lexeme := substr l.m_source start length,
           line := l.m_line, column := l.m_column }, l)
    | none =>
      ({ type := check_keyword (substr l.m_source start length),
         lexeme := substr l.m_source start length,
         line := l.m_line, column := l.m_column }, l)

theorem Lexer.ident_loop_fuel_eq (fuel : Nat) :
    ∀ (l : Lexer) (start length : Nat), l.m_source.length - l.m_current ≤ fuel →
      Lexer.ident_loop_fuel fuel l start length = Lexer.ident_loop l start length := by
  induction fuel with
  | zero =>
    intro l start length h
    rw [Lexer.ident_loop_of_none (Lexer.get_current_none_of_le (by omega))]
    rfl
  | succ fuel ih =>
    intro l start length h
    cases hc : l.get_current with
    | none =>
      rw [Lexer.ident_loop_of_none hc]
      simp [Lexer.ident_loop_fuel, hc]
    | some c =>
      have h1 := Lexer.advance_m_current_of_some hc
      have h2 : l.advance.m_source.length = l.m_source.length := by
        rw [Lexer.advance_m_source]
      have h3 := Lexer.get_current_lt hc
      by_cases hs : is_ident c = true
      · rw [Lexer.ident_loop_of_cont hc hs, ← ih l.advance start (length + 1) (by omega)]
        simp [Lexer.ident_loop_fuel, hc, hs]
      · have hs' : is_ident c = false := by simpa using hs
        rw [Lexer.ident_loop_of_stop hc hs']
        simp [Lexer.ident_loop_fuel, hc, hs']

def Lexer.ident_loop_exec (l : Lexer) (start length : Nat) : Token × Lexer :=
  Lexer.ident_loop_fuel (l.m_source.length - l.m_current) l start length

theorem Lexer.ident_loop_exec_eq (l : Lexer) (start length : Nat) :
    Lexer.ident_loop_exec l start length = Lexer.ident_loop l start length :=
  Lexer.ident_loop_fuel_eq _ l start length (Nat.le_refl _)

def Lexer.number_loop_fuel : Nat → Lexer → Nat → Nat → Token × Lexer
  | 0, l, start, length =>
    ({ type := TokenType.LiteralInteger, lexeme := substr l.m_source start length,
       line := l.m_line, column := l.m_column }, l)
  | fuel + 1, l, start, length =>
    match l.get_current with
    | some current =>
      if is_digit current then
        Lexer.number_loop_fuel fuel l.advance start (length + 1)
      else
        ({ type := TokenType.LiteralInteger, lexeme := substr l.m_source start length,
           line := l.m_line, column := l.m_column }, l)
    | none =>
      ({ type := TokenType.LiteralInteger, lexeme := substr l.m_source start length,
         line := l.m_line, column := l.m_column }, l)

theorem Lexer.number_loop_fuel_eq (fuel : Nat) :
    ∀ (l : Lexer) (start length : Nat), l.m_source.length - l.m_current ≤ fuel →
      Lexer.number_loop_fuel fuel l start length = Lexer.number_loop l start length := by
  induction fuel with
  | zero =>
    intro l start length h
    rw [Lexer.number_loop_of_none (Lexer.get_current_none_of_le (by omega))]
    rfl
  | succ fuel ih =>
    intro l start length h
    cases hc : l.get_current with
    | none =>
      rw [Lexer.number_loop_of_none hc]
      simp [Lexer.number_loop_fuel, hc]
    | some c =>
      have h1 := Lexer.advance_m_current_of_some hc
      have h2 : l.advance.m_source.length = l.m_source.length := by
        rw [Lexer.advance_m_source]
      have h3 := Lexer.get_current_lt hc
      by_cases hs : is_digit c = true
      · rw [Lexer.number_loop_of_cont hc hs, ← ih l.advance start (length + 1) (by omega)]
        simp [Lexer.number_loop_fuel, hc, hs]
      · have hs' : is_digit c = false := by simpa using hs
        rw [Lexer.number_loop_of_stop hc hs']
        simp [Lexer.number_loop_fuel, hc, hs']

def Lexer.number_loop_exec (l : Lexer) (start length : Nat) : Token × Lexer :=
  Lexer.number_loop_fuel (l.m_source.length - l.m_current) l start length

theorem Lexer.number_loop_exec_eq (l : Lexer) (start length : Nat) :
    Lexer.number_loop_exec l start length = Lexer.number_loop l start length :=
  Lexer.number_loop_fuel_eq _ l start length (Nat.le_refl _)

def Lexer.make_identifier_exec (l : Lexer) : Option (Token × Lexer) :=
  match l.get_current with
  | none => none
  | some current =>
    if is_ident_start current then
      some (Lexer.ident_loop_exec l.advance l.m_current 0)
    else
      none

theorem Lexer.make_identifier_exec_eq (l : Lexer) :
    l.make_identifier_exec = l.make_identifier := by
  unfold Lexer.make_identifier_exec Lexer.make_identifier
  cases hc : l.get_current with
  | none => rfl
  | some c => simp only [Lexer.ident_loop_exec_eq]

def Lexer.make_number_exec (l : Lexer) : Option (Token × Lexer) :=
  match l.get_current with
  | none => none
  | some current =>
    if is_digit current then
      some (Lexer.number_loop_exec l.advance l.m_current 0)
    else
      none

theorem Lexer.make_number_exec_eq (l : Lexer) :
    l.make_number_exec = l.make_number := by
  unfold Lexer.make_number_exec Lexer.make_number
  cases hc : l.get_current with
  | none => rfl
  | some c => simp only [Lexer.number_loop_exec_eq]

def Lexer.classify_exec (m : Lexer) : Option (Token × Lexer) :=
  match m.get_current with
  | none => none
  | some current =>
    if current = '{' then some (m.make_token_and_advance TokenType.SymbolBraceLeft)
    else if current = '}' then some (m.make_token_and_advance TokenType.SymbolBraceRight)
    else if current = '(' then some (m.make_token_and_advance TokenType.SymbolParenLeft)
    else if current = ')' then some (m.make_token_and_advance TokenType.SymbolParenRight)
    else if current = ';' then some (m.make_token_and_advance TokenType.SymbolSemicolon)
    else if is_ident_start current then m.make_identifier_exec
    else if is_digit current then m.make_number_exec
    else some m.make_error

theorem Lexer.classify_exec_eq (m : Lexer) : m.classify_exec = m.classify := by
  unfold Lexer.classify_exec Lexer.classify
  simp only [Lexer.make_identifier_exec_eq, Lexer.make_number_exec_eq]

def Lexer.next_token_exec (l : Lexer) : Option (Token × Lexer) :=
  Lexer.classify_exec l.skip_whitespace_exec

theorem Lexer.next_token_exec_eq (l : Lexer) : l.next_token_exec = l.next_token := by
  unfold Lexer.next_token_exec Lexer.next_token
  rw [Lexer.skip_whitespace_exec_eq, Lexer.classify_exec_eq]

def Lexer.tokenize_loop_fuel : Nat → Lexer → List Token → List Token
  | 0, _, tokens => tokens
  | fuel + 1, l, tokens =>
    match l.next_token_exec with
    | none => tokens
    | some (t, l') => Lexer.tokenize_loop_fuel fuel l' (tokens ++ [t])

theorem Lexer.next_token_none_of_le {l : Lexer}
    (h : l.m_source.length ≤ l.m_current) : l.next_token = none := by
  unfold Lexer.next_token
  rw [Lexer.skip_whitespace_of_none (Lexer.get_current_none_of_le h)]
  unfold Lexer.classify
  rw [Lexer.get_current_none_of_le h]

theorem Lexer.tokenize_loop_fuel_eq (fuel : Nat) :
    ∀ (l : Lexer) (tokens : List Token), l.m_source.length - l.m_current ≤ fuel →
      Lexer.tokenize_loop_fuel fuel l tokens = Lexer.tokenize_loop l tokens := by
  induction fuel with
  | zero =>
    intro l tokens h
    rw [Lexer.tokenize_loop_of_none (Lexer.next_token_none_of_le (by omega))]
    rfl
  | succ fuel ih =>
    intro l tokens h
    cases hn : l.next_token with
    | none =>
      rw [Lexer.tokenize_loop_of_none hn]
      simp [Lexer.tokenize_loop_fuel, Lexer.next_token_exec_eq, hn]
    | some p =>
      obtain ⟨t, l'⟩ := p
      obtain ⟨h1, h2, h3⟩ := Lexer.next_token_progress hn
      have h4 : l'.m_source.length = l.m_source.length := by rw [h1]
      rw [Lexer.tokenize_loop_of_some hn, ← ih l' (tokens ++ [t]) (by omega)]
      simp [Lexer.tokenize_loop_fuel, Lexer.next_token_exec_eq, hn]

/-- `tokenize` with just enough fuel: a structurally computable version of
the token-collection loop. -/
def tokenize_exec (source : List Char) : List Token :=
  Lexer.tokenize_loop_fuel source.length (Lexer.init source) []

theorem tokenize_exec_eq (source : List Char) : tokenize_exec source = tokenize source :=
  Lexer.tokenize_loop_fuel_eq _ _ _ (by simp [Lexer.init])

/-! ## AST model (`include/ecc/ast.hpp`) -/

/-- `struct Identifier`. -/
structure Identifier where
  name : String
  deriving DecidableEq, Repr

/-- `struct IntegerLiteral`; the C++ field is an `int`, modelled as `Int`
(the parser's range check keeps every constructed value inside the 32-bit
range). -/
structure IntegerLiteral where
  value : Int
  deriving DecidableEq, Repr

/-- `Expression = std::variant<Identifier, IntegerLiteral>`. -/
inductive Expression where
  | identifier (i : Identifier)
  | integerLiteral (i : IntegerLiteral)
  deriving DecidableEq, Repr

/-- `struct ReturnStatement`. -/
structure ReturnStatement where
  return_value : Expression
  deriving DecidableEq, Repr

/-- `Statement = std::variant<ReturnStatement>`. -/
inductive Statement where
  | returnStatement (r : ReturnStatement)
  deriving DecidableEq, Repr

/-- `struct Function`: a name and an ordered body of statements. -/
structure Function where
  name : Identifier
  body : List Statement
  deriving DecidableEq, Repr

/-- `struct Program`: exactly one function. -/
structure Program where
  function : Function
  deriving DecidableEq, Repr

/-! ## `std::stoi` model and parser (`src/parser.cpp`) -/

/-- The two exception kinds `std::stoi` can raise. -/
inductive StoiError where
  | invalidArgument
  | outOfRange
  deriving DecidableEq, Repr

/-- The numeric value of a digit string, most significant digit first. -/
def digits_value (ds : List Char) : Nat :=
  ds.foldl (fun acc c => acc * 10 + (c.toNat - '0'.toNat)) 0

/-- Modelled from the spec: `std::stoi` (base 10) as called by
`Parser::parse_integer_literal` — its implementation is the C++ standard
library, not part of this repository.  Leading whitespace is skipped, an
optional sign is read, the maximal digit run is converted; no digits raise
`std::invalid_argument`, and a value outside the range of `int`
(`[-2^31, 2^31 - 1]` on the x86-64 target) raises `std::out_of_range`
instead of wrapping. -/
def stoi (s : String) : Except StoiError Int :=
  let cs := s.data.dropWhile isspace
  let sign : Int := if cs.head? = some '-' then -1 else 1
  let cs2 := if cs.head? = some '-' ∨ cs.head? = some '+' then cs.tail else cs
  let ds := cs2.takeWhile is_digit
  if ds = [] then Except.error StoiError.invalidArgument
  else
    let v : Int := sign * (digits_value ds : Int)
    if v < -(2 ^ 31) ∨ (2 ^ 31 - 1 : Int) < v then Except.error StoiError.outOfRange
    else Except.ok v

/-- Parser failures: `std::runtime_error` messages thrown by the parser
itself, and `std::stoi` exceptions escaping `parse_integer_literal`. -/
inductive ParseError where
  | runtimeError (message : String)
  | stoiError (e : StoiError)
  deriving DecidableEq, Repr

/-- The `Parser` class state: the eager token sequence and the cursor. -/
structure Parser where
  m_tokens : List Token
  m_current : Nat
  deriving DecidableEq, Repr

/-- The `Parser(const std::vector<Token> &tokens)` constructor. -/
def Parser.init (tokens : List Token) : Parser :=
  { m_tokens := tokens, m_current := 0 }

/-- `Parser::has_more_tokens`. -/
def Parser.has_more_tokens (p : Parser) : Bool :=
  decide (p.m_current < p.m_tokens.length)

/-- `Parser::get_current`. -/
def Parser.get_current (p : Parser) : Option Token :=
  p.m_tokens.get? p.m_current

/-- `Parser::consume_token`: on a type match, advance the cursor and
return the consumed token; otherwise throw a `runtime_error` whose message
is `"expected token of type "` followed by the printed expected type. -/
def Parser.consume_token (p : Parser) (type : TokenType) : Except ParseError (Token × Parser) :=
  match p.get_current with
  | none =>
    Except.error (ParseError.runtimeError ("expected token of type " ++ showTokenType type))
  | some current =>
    if current.type ≠ type then
      Except.error (ParseError.runtimeError ("expected token of type " ++ showTokenType type))
    else
      Except.ok (current, { p with m_current := p.m_current + 1 })

/-- `Parser::parse_identifier`. -/
def Parser.parse_identifier (p : Parser) : Except ParseError (Identifier × Parser) := do
  let (ident, p) ← p.consume_token TokenType.LiteralIdentifier
  pure (⟨ident.lexeme⟩, p)

/-- `Parser::parse_integer_literal`: check the current token is an integer
literal, advance, then convert the lexeme with `std::stoi`. -/
def Parser.parse_integer_literal (p : Parser) : Except ParseError (IntegerLiteral × Parser) :=
  match p.get_current with
  | none => Except.error (ParseError.runtimeError "expected integer literal")
  | some current =>
    if current.type ≠ TokenType.LiteralInteger then
      Except.error (ParseError.runtimeError "expected integer literal")
    else
      match stoi current.lexeme with
      | Except.ok value => Except.ok (⟨value⟩, { p with m_current := p.m_current + 1 })
      | Except.error e => Except.error (ParseError.stoiError e)

/-- `Parser::parse_expression`: dispatch on the current token's type; only
an integer literal is accepted. -/
def Parser.parse_expression (p : Parser) : Except ParseError (Expression × Parser) :=
  match p.get_current with
  | none => Except.error (ParseError.runtimeError "expected expression")
  | some current =>
    match current.type with
    | TokenType.LiteralInteger => do
      let (il, p) ← p.parse_integer_literal
      pure (Expression.integerLiteral il, p)
    | _ => Except.error (ParseError.runtimeError "expected expression")

/-- `Parser::parse_return_statement`. -/
def Parser.parse_return_statement (p : Parser) : Except ParseError (ReturnStatement × Parser) := do
  let (_, p) ← p.consume_token TokenType.KeywordReturn
  let (return_value, p) ← p.parse_expression
  let (_, p) ← p.consume_token TokenType.SymbolSemicolon
  pure (⟨return_value⟩, p)

/-- `Parser::parse_statement`. -/
def Parser.parse_statement (p : Parser) : Except ParseError (Statement × Parser) := do
  let (r, p) ← p.parse_return_statement
  pure (Statement.returnStatement r, p)

/-- `Parser::parse_function`: the fixed token sequence
`int identifier ( void ) { statement }`. -/
def Parser.parse_function (p : Parser) : Except ParseError (Function × Parser) := do
  let (_, p) ← p.consume_token TokenType.KeywordInt
  let (name, p) ← p.parse_identifier
  let (_, p) ← p.consume_token TokenType.SymbolParenLeft
  let (_, p) ← p.consume_token TokenType.KeywordVoid
  let (_, p) ← p.consume_token TokenType.SymbolParenRight
  let (_, p) ← p.consume_token TokenType.SymbolBraceLeft
  let (return_statement, p) ← p.parse_statement
  let (_, p) ← p.consume_token TokenType.SymbolBraceRight
  pure ({ name := name, body := [return_statement] }, p)

/-- `Parser::parse_program`: one function, then the token stream must be
exhausted. -/
def Parser.parse_program (p : Parser) : Except ParseError (Program × Parser) := do
  let (function, p) ← p.parse_function
  if p.has_more_tokens then
    Except.error (ParseError.runtimeError "expected end of file")
  else
    pure (⟨function⟩, p)

/-! ## Code generator (`src/compiler.cpp`)

The C++ `Compiler` accumulates text in an `std::ostringstream` member and
throws on the unimplemented construct; each visitor is modelled as a
function from the buffer contents so far to `Except` of the new buffer
contents, errors carrying the thrown message. -/

/-- `Compiler::operator()(const Identifier &)` and
`Compiler::operator()(const IntegerLiteral &)`: an identifier throws
`std::runtime_error("todo")`; an integer literal appends `'$'` followed by
its value. -/
def compile_expression (m_assembly : String) : Expression → Except String String
  | Expression.identifier _ => Except.error "todo"
  | Expression.integerLiteral integer_literal =>
    Except.ok (m_assembly ++ "$" ++ toString integer_literal.value)

/-- `Compiler::operator()(const ReturnStatement &)`: `movl` of the visited
expression into `%eax`, then `ret`. -/
def compile_statement (m_assembly : String) : Statement → Except String String
  | Statement.returnStatement return_statement =>
    match compile_expression (m_assembly ++ "\tmovl\t") return_statement.return_value with
    | Except.ok buffer => Except.ok (buffer ++ ", %eax\n" ++ "\tret\n")
    | Except.error e => Except.error e

/-- The `for` loop over `function.body` in `Compiler::compile_function`. -/
def compile_statements (m_assembly : String) : List Statement → Except String String
  | [] => Except.ok m_assembly
  | statement :: rest =>
    match compile_statement m_assembly statement with
    | Except.ok buffer => compile_statements buffer rest
    | Except.error e => Except.error e

/-- `Compiler::compile_function`: the `.globl` directive and label, then
the body statements in order. -/
def compile_function (m_assembly : String) (function : Function) : Except String String :=
  compile_statements
    (m_assembly ++ "\t.globl " ++ function.name.name ++ "\n" ++ function.name.name ++ ":\n")
    function.body

/-- `Compiler::compile_program` on a fresh `Compiler` followed by
`Compiler::get_code`: the complete assembly text for a program. -/
def compile_program (program : Program) : Except String String :=
  compile_function "" program.function

/-! ## Supporting lemmas for the specification theorems -/

/-- `small` occurs contiguously inside `big` — the formalization of
"substring of the source". -/
def occurs_in (small big : List Char) : Prop :=
  ∃ pre post, big = pre ++ (small ++ post)

theorem occurs_in_length {small big : List Char} (h : occurs_in small big) :
    small.length ≤ big.length := by
  obtain ⟨pre, post, rfl⟩ := h
  simp [List.length_append]
  omega

theorem substr_occurs_in (s : List Char) (pos count : Nat) :
    occurs_in (substr s pos count).data s := by
  have h1 : (s.drop pos).take count ++ (s.drop pos).drop count = s.drop pos :=
    List.take_append_drop _ _
  have h2 : s.take pos ++ s.drop pos = s := List.take_append_drop _ _
  exact ⟨s.take pos, (s.drop pos).drop count, by rw [show (substr s pos count).data
    = (s.drop pos).take count from rfl, h1, h2]⟩

/-- A computable check for `occurs_in`. -/
def occurs_in_dec (small big : List Char) : Bool :=
  (List.range (big.length + 1)).any (fun i => decide ((big.drop i).take small.length = small))

theorem occurs_in_iff (small big : List Char) :
    occurs_in small big ↔ occurs_in_dec small big = true := by
  constructor
  · rintro ⟨pre, post, rfl⟩
    unfold occurs_in_dec
    rw [List.any_eq_true]
    refine ⟨pre.length, List.mem_range.mpr (by simp [List.length_append]; omega), ?_⟩
    rw [decide_eq_true_iff]
    rw [List.drop_left, List.take_left]
  · intro h
    unfold occurs_in_dec at h
    rw [List.any_eq_true] at h
    obtain ⟨i, hmem, hi⟩ := h
    replace hi := of_decide_eq_true hi
    refine ⟨big.take i, (big.drop i).drop small.length, ?_⟩
    have hmid : small ++ (big.drop i).drop small.length = big.drop i := by
      conv_rhs => rw [← List.take_append_drop small.length (big.drop i)]
      rw [hi]
    calc big = big.take i ++ big.drop i := (List.take_append_drop i big).symm
      _ = big.take i ++ (small ++ (big.drop i).drop small.length) :=
          congrArg (fun x => big.take i ++ x) hmid.symm

instance occurs_in_decidable (small big : List Char) : Decidable (occurs_in small big) :=
  decidable_of_iff (occurs_in_dec small big = true) (occurs_in_iff small big).symm

theorem check_keyword_ne_special (s : String) :
    check_keyword s ≠ TokenType.SpecialError := by
  unfold check_keyword
  split_ifs <;> decide

theorem check_keyword_cases (s : String) :
    check_keyword s = TokenType.KeywordInt ∨ check_keyword s = TokenType.KeywordReturn ∨
    check_keyword s = TokenType.KeywordVoid ∨ check_keyword s = TokenType.LiteralIdentifier := by
  unfold check_keyword
  split_ifs <;> simp

/-- Exit characterization of the identifier loop: it returns a token whose
lexeme is a substring of the source starting at `start`, typed by
`check_keyword`, positioned at the final lexer state, and that final state
keeps the same source. -/
theorem Lexer.ident_loop_spec (l : Lexer) (start length : Nat) :
    ∃ (n : Nat) (lf : Lexer),
      Lexer.ident_loop l start length =
        ({ type := check_keyword (substr l.m_source start n),
           lexeme := substr l.m_source start n,
           line := lf.m_line, column := lf.m_column }, lf) ∧
      lf.m_source = l.m_source := by
  cases hc : l.get_current with
  | none =>
    rw [Lexer.ident_loop_of_none hc]
    exact ⟨length, l, rfl, rfl⟩
  | some c =>
    by_cases hs : is_ident c = true
    · rw [Lexer.ident_loop_of_cont hc hs]
      obtain ⟨n, lf, hEq, hSrc⟩ := Lexer.ident_loop_spec l.advance start (length + 1)
      rw [Lexer.advance_m_source] at hEq hSrc
      exact ⟨n, lf, hEq, hSrc⟩
    · have hs' : is_ident c = false := by simpa using hs
      rw [Lexer.ident_loop_of_stop hc hs']
      exact ⟨length, l, rfl, rfl⟩
termination_by l.m_source.length - l.m_current
decreasing_by
  have h1 : l.advance.m_source.length = l.m_source.length := by
    rw [Lexer.advance_m_source]
  have h2 := Lexer.advance_m_current_of_some hc
  have h3 := Lexer.get_current_lt hc
  omega

/-- Exit characterization of the number loop, analogous to
`Lexer.ident_loop_spec`. -/
theorem Lexer.number_loop_spec (l : Lexer) (start length : Nat) :
    ∃ (n : Nat) (lf : Lexer),
      Lexer.number_loop l start length =
        ({ type := TokenType.LiteralInteger,
           lexeme := substr l.m_source start n,
           line := lf.m_line, column := lf.m_column }, lf) ∧
      lf.m_source = l.m_source := by
  cases hc : l.get_current with
  | none =>
    rw [Lexer.number_loop_of_none hc]
    exact ⟨length, l, rfl, rfl⟩
  | some c =>
    by_cases hs : is_digit c = true
    · rw [Lexer.number_loop_of_cont hc hs]
      obtain ⟨n, lf, hEq, hSrc⟩ := Lexer.number_loop_spec l.advance start (length + 1)
      rw [Lexer.advance_m_source] at hEq hSrc
      exact ⟨n, lf, hEq, hSrc⟩
    · have hs' : is_digit c = false := by simpa using hs
      rw [Lexer.number_loop_of_stop hc hs']
      exact ⟨length, l, rfl, rfl⟩
termination_by l.m_source.length - l.m_current
decreasing_by
  have h1 : l.advance.m_source.length = l.m_source.length := by
    rw [Lexer.advance_m_source]
  have h2 := Lexer.advance_m_current_of_some hc
  have h3 := Lexer.get_current_lt hc
  omega

theorem Lexer.make_identifier_some {l : Lexer} {c : Char}
    (hc : l.get_current = some c) (hs : is_ident_start c = true) :
    l.make_identifier = some (Lexer.ident_loop l.advance l.m_current 0) := by
  unfold Lexer.make_identifier
  rw [hc]
  simp [hs]

theorem Lexer.make_number_some {l : Lexer} {c : Char}
    (hc : l.get_current = some c) (hs : is_digit c = true) :
    l.make_number = some (Lexer.number_loop l.advance l.m_current 0) := by
  unfold Lexer.make_number
  rw [hc]
  simp [hs]

theorem isspace_eq_false_of_is_digit {c : Char} (h : is_digit c = true) :
    isspace c = false := by
  cases hs : isspace c
  · rfl
  · exfalso
    simp [isspace] at hs
    rcases hs with ((((rfl | rfl) | rfl) | rfl) | rfl) | rfl <;> exact absurd h (by decide)

theorem takeWhile_eq_self_of_all {p : Char → Bool} :
    ∀ {l : List Char}, (∀ c ∈ l, p c = true) → l.takeWhile p = l := by
  intro l
  induction l with
  | nil => intro _; rfl
  | cons a l ih =>
    intro h
    rw [List.takeWhile_cons, h a (List.mem_cons_self a l)]
    simp [ih (fun c hc => h c (List.mem_cons_of_mem a hc))]

/-- `std::stoi` on a nonempty all-digit string: the numeric value when it
fits in `int`, the range error otherwise. -/
theorem stoi_digits {s : String} (hne : s.data ≠ [])
    (hdig : ∀ c ∈ s.data, is_digit c = true) :
    stoi s = if (digits_value s.data : Int) ≤ 2 ^ 31 - 1
             then Except.ok ((digits_value s.data : Int))
             else Except.error StoiError.outOfRange := by
  obtain ⟨d, rest, hd⟩ : ∃ d rest, s.data = d :: rest := by
    cases hcase : s.data with
    | nil => exact absurd hcase hne
    | cons d rest => exact ⟨d, rest, rfl⟩
  have hdigd : is_digit d = true := hdig d (by rw [hd]; exact List.mem_cons_self _ _)
  have hnotminus : d ≠ '-' := by rintro rfl; exact absurd hdigd (by decide)
  have hnotplus : d ≠ '+' := by rintro rfl; exact absurd hdigd (by decide)
  have hdrop : List.dropWhile isspace (d :: rest) = d :: rest := by
    rw [List.dropWhile_cons, isspace_eq_false_of_is_digit hdigd]
    simp
  have hdig' : ∀ c ∈ d :: rest, is_digit c = true := by rw [← hd]; exact hdig
  have h1 : ¬ ((d :: rest).head? = some '-') := by simpa using hnotminus
  have h2 : ¬ ((d :: rest).head? = some '+') := by simpa using hnotplus
  have horcond : ¬ ((d :: rest).head? = some '-' ∨ (d :: rest).head? = some '+') := by
    rintro (h | h)
    · exact h1 h
    · exact h2 h
  unfold stoi
  rw [hd, hdrop]
  dsimp only
  rw [if_neg horcond, if_neg h1]
  rw [takeWhile_eq_self_of_all hdig']
  rw [if_neg (List.cons_ne_nil d rest), one_mul]
  by_cases hv : (digits_value (d :: rest) : Int) ≤ 2 ^ 31 - 1
  · rw [if_neg (by rintro (h | h) <;> omega), if_pos hv]
  · rw [if_pos (by right; omega), if_neg hv]

theorem check_keyword_not_symbolic (s : String) :
    check_keyword s ≠ TokenType.SymbolBraceLeft ∧
    check_keyword s ≠ TokenType.SymbolBraceRight ∧
    check_keyword s ≠ TokenType.SymbolParenLeft ∧
    check_keyword s ≠ TokenType.SymbolParenRight ∧
    check_keyword s ≠ TokenType.SymbolSemicolon ∧
    check_keyword s ≠ TokenType.SpecialError := by
  unfold check_keyword
  split_ifs <;> refine ⟨?_, ?_, ?_, ?_, ?_, ?_⟩ <;> decide

/-! ## Concrete inputs used by the specification claims -/

/-- The characters of the source text `int main(void){return 2;}`. -/
def src_main : List Char :=
  ['i', 'n', 't', ' ', 'm', 'a', 'i', 'n', '(', 'v', 'o', 'i', 'd', ')',
   '{', 'r', 'e', 't', 'u', 'r', 'n', ' ', '2', ';', '}']

/-- The AST `Program(Function(name "main", body [Return(IntegerLiteral 2)]))`. -/
def ast_main : Program :=
  ⟨⟨⟨"main"⟩, [Statement.returnStatement ⟨Expression.integerLiteral ⟨2⟩⟩]⟩⟩

/-! ## Specification claims -/

/-- C1: the claim states that `next_token` on each of the symbols
`{ } ( ) ;` emits a token whose type matches the symbol and advances one
character.  The code's `make_token_and_advance` ignores the requested type
and tags every single-character token `SymbolBraceLeft`: lexing the source
`"}"` yields a `SymbolBraceLeft` token, not a `SymbolBraceRight` one (the
cursor does advance exactly one character). -/
theorem C1_symbol_token_mistagged :
    (Lexer.init ['}']).next_token =
      some ({ type := TokenType.SymbolBraceLeft, lexeme := "\x7d", line := 1, column := 1 },
            { m_source := ['}'], m_current := 1, m_line := 1, m_column := 2 }) ∧
    TokenType.SymbolBraceLeft ≠ TokenType.SymbolBraceRight := by
  constructor
  · rw [← Lexer.next_token_exec_eq]
    rfl
  · decide

set_option maxRecDepth 4000 in
/-- C2: the claim states that lexing and parsing `int main(void){return 2;}`
succeeds with the expected AST.  In the code, the identifier/number loops
record one character too few (`"int"` lexes as an identifier with lexeme
`"in"`) and every symbol token is tagged brace-left, so `parse_program`
throws at its very first expected token. -/
theorem C2_parse_of_return2_fails :
    Parser.parse_program (Parser.init (tokenize src_main)) =
      Except.error (ParseError.runtimeError "expected token of type TokenType::KeywordInt") ∧
    (tokenize src_main).map Token.lexeme =
      ["in", "mai", "(", "voi", ")", "\x7b", "retur", "", ";", "\x7d"] := by
  rw [← tokenize_exec_eq]
  constructor <;> rfl

/-- C3: generating code for `Program(Function("main", [Return(IntegerLiteral 2)]))`
produces assembly that contains, in this order: the `.globl` directive and
label for `main`, a move of the immediate `$2` into the return-value
register `%eax`, and a `ret` instruction. -/
theorem C3_compile_return2 :
    compile_program ast_main =
      Except.ok ("\t.globl main\n" ++ "main:\n" ++ "\tmovl\t" ++ "$2" ++
        ", %eax\n" ++ "\tret\n") := by
  rfl

/-- C4 counterexample: the claim says every token's lexeme — error tokens
included — is a substring of the source.  Lexing `"#"` produces an error
token whose lexeme is the fixed diagnostic `"unrecognized character"`,
which is not a substring of `"#"`. -/
theorem C4_counterexample_error_lexeme :
    (Lexer.init ['#']).next_token =
      some ({ type := TokenType.SpecialError, lexeme := "unrecognized character",
              line := 1, column := 1 },
            { m_source := ['#'], m_current := 1, m_line := 1, m_column := 2 }) ∧
    ¬ occurs_in "unrecognized character".data ['#'] := by
  constructor
  · rw [← Lexer.next_token_exec_eq]
    rfl
  · decide

/-- C4 (amended): every token produced by `next_token` whose type is not
`SpecialError` has a lexeme that is a substring of the source text; an
error token instead carries the fixed diagnostic message
`"unrecognized character"` as its lexeme. -/
theorem C4_lexeme_substring {l : Lexer} {t : Token} {l' : Lexer}
    (h : l.next_token = some (t, l')) :
    (t.type ≠ TokenType.SpecialError → occurs_in t.lexeme.data l.m_source) ∧
    (t.type = TokenType.SpecialError → t.lexeme = "unrecognized character") := by
  unfold Lexer.next_token at h
  have hsrc : l.skip_whitespace.m_source = l.m_source := Lexer.skip_whitespace_m_source l
  set m := l.skip_whitespace with hm
  unfold Lexer.classify at h
  cases hc : m.get_current with
  | none =>
    rw [hc] at h
    exact Option.noConfusion h
  | some current =>
    rw [hc] at h
    simp only at h
    split_ifs at h with h1 h2 h3 h4 h5 h6 h7
    · obtain ⟨rfl, rfl⟩ := Prod.mk.injEq .. ▸ Option.some.inj h
      refine ⟨fun _ => ?_, fun habs => TokenType.noConfusion habs⟩
      rw [← hsrc]
      exact substr_occurs_in m.m_source m.m_current 1
    · obtain ⟨rfl, rfl⟩ := Prod.mk.injEq .. ▸ Option.some.inj h
      refine ⟨fun _ => ?_, fun habs => TokenType.noConfusion habs⟩
      rw [← hsrc]
      exact substr_occurs_in m.m_source m.m_current 1
    · obtain ⟨rfl, rfl⟩ := Prod.mk.injEq .. ▸ Option.some.inj h
      refine ⟨fun _ => ?_, fun habs => TokenType.noConfusion habs⟩
      rw [← hsrc]
      exact substr_occurs_in m.m_source m.m_current 1
    · obtain ⟨rfl, rfl⟩ := Prod.mk.injEq .. ▸ Option.some.inj h
      refine ⟨fun _ => ?_, fun habs => TokenType.noConfusion habs⟩
      rw [← hsrc]
      exact substr_occurs_in m.m_source m.m_current 1
    · obtain ⟨rfl, rfl⟩ := Prod.mk.injEq .. ▸ Option.some.inj h
      refine ⟨fun _ => ?_, fun habs => TokenType.noConfusion habs⟩
      rw [← hsrc]
      exact substr_occurs_in m.m_source m.m_current 1
    · rw [Lexer.make_identifier_some hc h6] at h
      obtain ⟨n, lf, hEq, hSrc2⟩ := Lexer.ident_loop_spec m.advance m.m_current 0
      rw [hEq] at h
      obtain ⟨rfl, rfl⟩ := Prod.mk.injEq .. ▸ Option.some.inj h
      refine ⟨fun _ => ?_, fun habs => absurd habs (check_keyword_ne_special _)⟩
      have hs2 : m.advance.m_source = l.m_source := by rw [Lexer.advance_m_source, hsrc]
      rw [← hs2]
      exact substr_occurs_in m.advance.m_source m.m_current n
    · rw [Lexer.make_number_some hc h7] at h
      obtain ⟨n, lf, hEq, hSrc2⟩ := Lexer.number_loop_spec m.advance m.m_current 0
      rw [hEq] at h
      obtain ⟨rfl, rfl⟩ := Prod.mk.injEq .. ▸ Option.some.inj h
      refine ⟨fun _ => ?_, fun habs => TokenType.noConfusion habs⟩
      have hs2 : m.advance.m_source = l.m_source := by rw [Lexer.advance_m_source, hsrc]
      rw [← hs2]
      exact substr_occurs_in m.advance.m_source m.m_current n
    · obtain ⟨rfl, rfl⟩ := Prod.mk.injEq .. ▸ Option.some.inj h
      exact ⟨fun hne => absurd rfl hne, fun _ => rfl⟩

/-- Witness for C4 at the source `"}"`: the emitted token's lexeme occurs
in the source. -/
theorem C4_lexeme_substring_witness :
    occurs_in "\x7d".data ['}'] :=
  (@C4_lexeme_substring
      (Lexer.init ['}'])
      { type := TokenType.SymbolBraceLeft, lexeme := "\x7d", line := 1, column := 1 }
      { m_source := ['}'], m_current := 1, m_line := 1, m_column := 2 }
      (by rw [← Lexer.next_token_exec_eq]; rfl)).1 (by decide)

/-- C5 counterexample: the claim says the mismatch error names both the
expected and the actual token type.  With the current token of type
`KeywordReturn` and expected `KeywordInt`, the thrown message is exactly
`"expected token of type TokenType::KeywordInt"` and does not contain the
actual type's name. -/
theorem C5_counterexample_message_lacks_actual :
    Parser.consume_token
        (Parser.init [{ type := TokenType.KeywordReturn, lexeme := "return",
                        line := 1, column := 1 }])
        TokenType.KeywordInt =
      Except.error (ParseError.runtimeError "expected token of type TokenType::KeywordInt") ∧
    ¬ occurs_in (showTokenType TokenType.KeywordReturn).data
        "expected token of type TokenType::KeywordInt".data := by
  constructor
  · rfl
  · decide

/-- C5 (amended): `consume_token` advances the cursor by one and returns
the consumed token on a type match; on a mismatch — an exhausted token
stream, or a current token of a different type (in particular an error
token whenever a non-error type is expected) — it fails with a parse
error naming only the expected type. -/
theorem C5_consume_token_spec (p : Parser) (type : TokenType) :
    (∀ t, p.get_current = some t → t.type = type →
      p.consume_token type = Except.ok (t, { p with m_current := p.m_current + 1 })) ∧
    (p.get_current = none →
      p.consume_token type =
        Except.error (ParseError.runtimeError
          ("expected token of type " ++ showTokenType type))) ∧
    (∀ t, p.get_current = some t → t.type ≠ type →
      p.consume_token type =
        Except.error (ParseError.runtimeError
          ("expected token of type " ++ showTokenType type))) := by
  refine ⟨?_, ?_, ?_⟩
  · intro t hget htype
    unfold Parser.consume_token
    rw [hget]
    simp [htype]
  · intro hget
    unfold Parser.consume_token
    rw [hget]
  · intro t hget htype
    unfold Parser.consume_token
    rw [hget]
    simp [htype]

/-- Witness for C5 on the empty token stream. -/
theorem C5_consume_token_spec_witness :
    Parser.consume_token (Parser.init []) TokenType.SymbolSemicolon =
      Except.error (ParseError.runtimeError
        ("expected token of type " ++ showTokenType TokenType.SymbolSemicolon)) :=
  (C5_consume_token_spec (Parser.init []) TokenType.SymbolSemicolon).2.1 rfl

/-- C6 counterexample: the claim says the failure for an identifier
expression is a dedicated "unsupported expression kind" error.  The code
throws `std::runtime_error("todo")`; the message does not even contain
the word "unsupported". -/
theorem C6_counterexample_todo_message :
    compile_expression "" (Expression.identifier ⟨"x"⟩) = Except.error "todo" ∧
    ¬ occurs_in "unsupported".data "todo".data :=
  ⟨rfl, by decide⟩

/-- C6 (amended): evaluating an `Identifier` expression during code
generation always fails — though with the generic error message `"todo"`
rather than a dedicated "unsupported expression kind" error — and never
produces output (empty, zero, placeholder or otherwise) for that
expression. -/
theorem C6_identifier_always_fails (buffer : String) (i : Identifier) :
    compile_expression buffer (Expression.identifier i) = Except.error "todo" :=
  rfl

/-- C7: for an integer-literal token whose lexeme is a nonempty digit
string, `parse_integer_literal` returns exactly the numeric value of the
lexeme when it fits in a 32-bit `int`, fails with the dedicated
`std::out_of_range` error (never wrapping or truncating) when it does
not, and the produced value is a function of the lexeme alone, so every
parse of the same lexeme yields the same value. -/
theorem C7_parse_integer_literal_range (p : Parser) (t : Token)
    (hget : p.get_current = some t)
    (htype : t.type = TokenType.LiteralInteger)
    (hne : t.lexeme.data ≠ [])
    (hdig : ∀ c ∈ t.lexeme.data, is_digit c = true) :
    ((digits_value t.lexeme.data : Int) ≤ 2 ^ 31 - 1 →
      p.parse_integer_literal =
        Except.ok ({ value := (digits_value t.lexeme.data : Int) },
                   { p with m_current := p.m_current + 1 })) ∧
    (2 ^ 31 - 1 < (digits_value t.lexeme.data : Int) →
      p.parse_integer_literal = Except.error (ParseError.stoiError StoiError.outOfRange)) ∧
    (∀ (q : Parser) (u : Token), q.get_current = some u →
      u.type = TokenType.LiteralInteger → u.lexeme = t.lexeme →
      (q.parse_integer_literal).map Prod.fst = (p.parse_integer_literal).map Prod.fst) := by
  have hstoi := stoi_digits hne hdig
  have hred : p.parse_integer_literal =
      match stoi t.lexeme with
      | Except.ok value => Except.ok (⟨value⟩, { p with m_current := p.m_current + 1 })
      | Except.error e => Except.error (ParseError.stoiError e) := by
    unfold Parser.parse_integer_literal
    rw [hget]
    simp [htype]
  refine ⟨?_, ?_, ?_⟩
  · intro hle
    rw [hred, hstoi, if_pos hle]
  · intro hlt
    rw [hred, hstoi, if_neg (by omega)]
  · intro q u hgetq htypeq hlex
    have hredq : q.parse_integer_literal =
        match stoi u.lexeme with
        | Except.ok value => Except.ok (⟨value⟩, { q with m_current := q.m_current + 1 })
        | Except.error e => Except.error (ParseError.stoiError e) := by
      unfold Parser.parse_integer_literal
      rw [hgetq]
      simp [htypeq]
    rw [hred, hredq, hlex]
    cases stoi t.lexeme <;> rfl

/-- Witness for C7 on the lexeme `"2"`. -/
theorem C7_parse_integer_literal_range_witness :
    Parser.parse_integer_literal (Parser.init
        [{ type := TokenType.LiteralInteger, lexeme := "2", line := 1, column := 1 }]) =
      Except.ok ({ value := 2 },
        { m_tokens := [{ type := TokenType.LiteralInteger, lexeme := "2",
                         line := 1, column := 1 }], m_current := 1 }) :=
  (C7_parse_integer_literal_range
      (Parser.init [{ type := TokenType.LiteralInteger, lexeme := "2", line := 1, column := 1 }])
      { type := TokenType.LiteralInteger, lexeme := "2", line := 1, column := 1 }
      rfl rfl (by decide) (by decide)).1 (by decide)

/-- C8: `advance` is the single primitive through which the lexer consumes
a character, both for standalone tokens and inside `skip_whitespace`;
consuming a newline increments the line counter and resets the column to
1, and consuming any other character increments the column and leaves the
line unchanged. -/
theorem C8_advance_line_column (l : Lexer) (c : Char) (h : l.get_current = some c) :
    (c = '\n' → l.advance.m_line = l.m_line + 1 ∧ l.advance.m_column = 1) ∧
    (c ≠ '\n' → l.advance.m_line = l.m_line ∧ l.advance.m_column = l.m_column + 1) := by
  simp only [Lexer.advance, h]
  constructor
  · rintro rfl
    simp
  · intro hne
    rw [if_neg hne]
    exact ⟨rfl, rfl⟩

/-- Witness for C8 on a one-newline source. -/
theorem C8_advance_line_column_witness :
    (Lexer.init ['\n']).advance.m_line = 1 + 1 ∧ (Lexer.init ['\n']).advance.m_column = 1 :=
  (C8_advance_line_column (Lexer.init ['\n']) '\n' rfl).1 rfl

/-- C9: whenever `next_token` returns a token, it has consumed at least
one character — the cursor strictly advances over an unchanged source and
the remaining input strictly shrinks — so repeatedly calling `next_token`
on a finite source terminates with end-of-stream. -/
theorem C9_next_token_strict_progress (l : Lexer) (t : Token) (l' : Lexer)
    (h : l.next_token = some (t, l')) :
    l.m_current < l'.m_current ∧ l'.m_source = l.m_source ∧
    l'.m_source.length - l'.m_current < l.m_source.length - l.m_current := by
  obtain ⟨h1, h2, h3⟩ := Lexer.next_token_progress h
  refine ⟨h2, h1, ?_⟩
  have h4 : l'.m_source.length = l.m_source.length := by rw [h1]
  omega

/-- Witness for C9: an unrecognized character consumes one character. -/
theorem C9_next_token_strict_progress_witness :
    (Lexer.init ['#']).m_current <
      ({ m_source := ['#'], m_current := 1, m_line := 1, m_column := 2 } : Lexer).m_current :=
  (C9_next_token_strict_progress (Lexer.init ['#'])
      { type := TokenType.SpecialError, lexeme := "unrecognized character",
        line := 1, column := 1 }
      { m_source := ['#'], m_current := 1, m_line := 1, m_column := 2 }
      (by rw [← Lexer.next_token_exec_eq]; rfl)).1

/-- C10: identifier and integer-literal tokens record the lexer position
reached after their characters have been consumed (one past the token's
last character), while single-character symbol tokens and error tokens
record the position of their first character (the state reached right
after whitespace skipping). -/
theorem C10_token_position_sampling (l : Lexer) (t : Token) (l' : Lexer)
    (h : l.next_token = some (t, l')) :
    ((t.type = TokenType.LiteralIdentifier ∨ t.type = TokenType.LiteralInteger) →
      t.line = l'.m_line ∧ t.column = l'.m_column) ∧
    ((t.type = TokenType.SymbolBraceLeft ∨ t.type = TokenType.SymbolBraceRight ∨
      t.type = TokenType.SymbolParenLeft ∨ t.type = TokenType.SymbolParenRight ∨
      t.type = TokenType.SymbolSemicolon ∨ t.type = TokenType.SpecialError) →
      t.line = l.skip_whitespace.m_line ∧ t.column = l.skip_whitespace.m_column) := by
  unfold Lexer.next_token at h
  set m := l.skip_whitespace with hm
  unfold Lexer.classify at h
  cases hc : m.get_current with
  | none =>
    rw [hc] at h
    exact Option.noConfusion h
  | some current =>
    rw [hc] at h
    simp only at h
    split_ifs at h with h1 h2 h3 h4 h5 h6 h7
    · obtain ⟨rfl, rfl⟩ := Prod.mk.injEq .. ▸ Option.some.inj h
      exact ⟨fun habs => by rcases habs with habs | habs <;> exact TokenType.noConfusion habs,
             fun _ => ⟨rfl, rfl⟩⟩
    · obtain ⟨rfl, rfl⟩ := Prod.mk.injEq .. ▸ Option.some.inj h
      exact ⟨fun habs => by rcases habs with habs | habs <;> exact TokenType.noConfusion habs,
             fun _ => ⟨rfl, rfl⟩⟩
    · obtain ⟨rfl, rfl⟩ := Prod.mk.injEq .. ▸ Option.some.inj h
      exact ⟨fun habs => by rcases habs with habs | habs <;> exact TokenType.noConfusion habs,
             fun _ => ⟨rfl, rfl⟩⟩
    · obtain ⟨rfl, rfl⟩ := Prod.mk.injEq .. ▸ Option.some.inj h
      exact ⟨fun habs => by rcases habs with habs | habs <;> exact TokenType.noConfusion habs,
             fun _ => ⟨rfl, rfl⟩⟩
    · obtain ⟨rfl, rfl⟩ := Prod.mk.injEq .. ▸ Option.some.inj h
      exact ⟨fun habs => by rcases habs with habs | habs <;> exact TokenType.noConfusion habs,
             fun _ => ⟨rfl, rfl⟩⟩
    · rw [Lexer.make_identifier_some hc h6] at h
      obtain ⟨n, lf, hEq, hSrc2⟩ := Lexer.ident_loop_spec m.advance m.m_current 0
      rw [hEq] at h
      obtain ⟨rfl, rfl⟩ := Prod.mk.injEq .. ▸ Option.some.inj h
      refine ⟨fun _ => ⟨rfl, rfl⟩, fun habs => ?_⟩
      obtain ⟨k1, k2, k3, k4, k5, k6⟩ :=
        check_keyword_not_symbolic (substr m.advance.m_source m.m_current n)
      rcases habs with habs | habs | habs | habs | habs | habs
      exacts [absurd habs k1, absurd habs k2, absurd habs k3,
              absurd habs k4, absurd habs k5, absurd habs k6]
    · rw [Lexer.make_number_some hc h7] at h
      obtain ⟨n, lf, hEq, hSrc2⟩ := Lexer.number_loop_spec m.advance m.m_current 0
      rw [hEq] at h
      obtain ⟨rfl, rfl⟩ := Prod.mk.injEq .. ▸ Option.some.inj h
      refine ⟨fun _ => ⟨rfl, rfl⟩, fun habs => ?_⟩
      rcases habs with habs | habs | habs | habs | habs | habs <;>
        exact TokenType.noConfusion habs
    · obtain ⟨rfl, rfl⟩ := Prod.mk.injEq .. ▸ Option.some.inj h
      refine ⟨fun habs => ?_, fun _ => ⟨rfl, rfl⟩⟩
      rcases habs with habs | habs <;> exact TokenType.noConfusion habs

/-- Witness for C10: the identifier token of the source `"ab"` records the
position one past its last consumed character. -/
theorem C10_token_position_sampling_witness :
    ({ type := TokenType.LiteralIdentifier, lexeme := "a", line := 1, column := 3 } : Token).line
        = ({ m_source := ['a', 'b'], m_current := 2, m_line := 1, m_column := 3 } : Lexer).m_line ∧
    ({ type := TokenType.LiteralIdentifier, lexeme := "a", line := 1, column := 3 } : Token).column
        = ({ m_source := ['a', 'b'], m_current := 2, m_line := 1, m_column := 3 } : Lexer).m_column :=
  (C10_token_position_sampling (Lexer.init ['a', 'b'])
      { type := TokenType.LiteralIdentifier, lexeme := "a", line := 1, column := 3 }
      { m_source := ['a', 'b'], m_current := 2, m_line := 1, m_column := 3 }
      (by rw [← Lexer.next_token_exec_eq]; rfl)).1 (Or.inl rfl)

end Ecc
